import Mathlib

/-!
Shallow embedding of the expense-tracker store (src/main.py) and proofs of
the specification claims about it.

The Python program keeps a single SQLite table
`expenses(id INTEGER PRIMARY KEY AUTOINCREMENT, date TEXT, amount REAL,
category TEXT, subcategory TEXT, note TEXT)` and exposes the operations
`init_db`, `add_expense`, `list_expenses`, `summarize` and the static
resource `categories`.

Embedding choices:
* a table state is a `Store`: the list of rows plus the next id the
  AUTOINCREMENT counter will hand out;
* SQLite compares TEXT values bytewise (memcmp over UTF-8); on strings this
  coincides with lexicographic comparison of the code-point sequences, which
  `strLe` implements executably;
* `REAL` amounts are modelled as exact rationals `ℚ` (the aggregation claims
  are about arithmetic sums, not rounding);
* the presence or absence of the table file is an `Option Store`, so that
  `init_db` (CREATE TABLE IF NOT EXISTS) can be stated on it;
* the fallible write path of `add_expense` is modelled by passing in the
  storage engine outcome (`none` = the write succeeds, `some e` = the engine
  fails with `e`); the Python code installs no handler, so an engine error
  propagates unchanged.
-/

/-- Lexicographic (code-point) comparison of character lists; this is the
order SQLite's memcmp induces on the TEXT column values. -/
def lexLe : List Char → List Char → Bool
  | [], _ => true
  | _ :: _, [] => false
  | x :: xs, y :: ys => if x < y then true else if x = y then lexLe xs ys else false

/-- Lexical comparison of strings, as SQLite applies it to `date` bounds in
`BETWEEN` and to `category` in `ORDER BY`. -/
def strLe (a b : String) : Bool := lexLe a.data b.data

/-- One row of the `expenses` table: the six columns of the schema created by
`init_db`. -/
structure Expense where
  id : Nat
  date : String
  amount : ℚ
  category : String
  subcategory : String
  note : String
deriving DecidableEq, Repr

/-- State of the `expenses` table: its rows together with the value the
AUTOINCREMENT counter will assign to the next inserted row. -/
structure Store where
  rows : List Expense
  nextId : Nat
deriving DecidableEq, Repr

/-- The freshly created table: no rows, AUTOINCREMENT starts at 1. -/
def emptyStore : Store := { rows := [], nextId := 1 }

/-- Embedding of `init_db` (CREATE TABLE IF NOT EXISTS): if the table is
absent it is created empty, if it already exists nothing changes. -/
def init_db : Option Store → Option Store
  | none => some emptyStore
  | some s => some s

/-- Result record of a successful `add_expense` call:
the Python dict with keys `status` and `id`. -/
structure AddResult where
  status : String
  id : Nat
deriving DecidableEq, Repr

/-- Embedding of the INSERT performed by `add_expense`: the new row gets the
next AUTOINCREMENT id, is appended to the table, and the handler returns
status "ok" with `cur.lastrowid`. -/
def add_expense (s : Store) (date : String) (amount : ℚ)
    (category : String) (subcategory : String := "") (note : String := "") :
    Store × AddResult :=
  let row : Expense :=
    { id := s.nextId, date := date, amount := amount,
      category := category, subcategory := subcategory, note := note }
  ({ rows := s.rows ++ [row], nextId := s.nextId + 1 }, { status := "ok", id := s.nextId })

/-- Failure modes of the persistence engine (sqlite3 exceptions). -/
inductive StorageError where
  | ioFailure
  | lockTimeout
  | constraintViolation
deriving DecidableEq, Repr

/-- Embedding of `add_expense` including the fallible write: `engine` is the
outcome of the underlying INSERT (`none` = success). The Python handler wraps
the INSERT in no try/except, so an engine error propagates to the caller
unchanged, and on success the handler returns the ok record. -/
def add_expenseE (engine : Option StorageError) (s : Store) (date : String)
    (amount : ℚ) (category : String) (subcategory : String := "")
    (note : String := "") : Except StorageError (Store × AddResult) :=
  match engine with
  | some e => Except.error e
  | none => Except.ok (add_expense s date amount category subcategory note)

/-- Test of the WHERE clause `date BETWEEN ? AND ?` for one row (inclusive on
both ends, lexical comparison). -/
def inRange (d1 d2 : String) (e : Expense) : Bool :=
  strLe d1 e.date && strLe e.date d2

/-- Embedding of `list_expenses`: rows whose date lies in the inclusive
range, ordered by ascending id (ORDER BY id ASC). Every returned record is a
full `Expense`, i.e. carries all six columns of the SELECT. -/
def list_expenses (s : Store) (start_date end_date : String) : List Expense :=
  (s.rows.filter (inRange start_date end_date)).mergeSort
    (fun a b => decide (a.id ≤ b.id))

/-- One output record of `summarize`: the Python dict with keys `category`
and `total_amount`. -/
structure SummaryRow where
  category : String
  total_amount : ℚ
deriving DecidableEq, Repr

/-- Python truthiness of the optional `category` argument: the filter branch
`if category:` runs only when the argument is present and non-empty. -/
def truthy : Option String → Bool
  | none => false
  | some c => !(c == "")

/-- Sum of `amount` over the rows of a list carrying a given category
(the SUM(amount) aggregate of one GROUP BY group). -/
def catTotal (rows : List Expense) (c : String) : ℚ :=
  ((rows.filter (fun e => e.category == c)).map (fun e => e.amount)).sum

/-- SQLite semantics of `GROUP BY category ... ORDER BY category ASC` over a
list of rows: one group per category value occurring in the list, each group
summed with SUM(amount), groups ordered alphabetically. Only categories that
actually occur among the rows form groups. -/
def groupByCategory (L : List Expense) : List SummaryRow :=
  (((L.map (fun e => e.category)).dedup).mergeSort strLe).map
    (fun c => { category := c, total_amount := catTotal L c })

/-- Embedding of `summarize`: restrict to the inclusive date range, apply the
category filter exactly when the Python truthiness test passes (`if category:`),
then group by category as the SQL does. -/
def summarize (s : Store) (start_date end_date : String)
    (category : Option String := none) : List SummaryRow :=
  let base := s.rows.filter (inRange start_date end_date)
  let filtered :=
    if truthy category then base.filter (fun e => e.category == category.getD "")
    else base
  groupByCategory filtered

/-- Embedding of the `categories` resource handler: given the bytes the
backing file holds at the moment of the access, it returns exactly those
bytes (`f.read()` with no transformation and no validation). -/
def categories (fileContent : String) : String := fileContent

/-- A sequence of accesses to the `categories` resource: the n-th access is
the handler run against the file content at that time. The handler keeps no
state between accesses, so each access depends only on the current content. -/
def categoriesAccesses (contents : List String) : List String :=
  contents.map categories

/-- The read-only query `list_expenses` as a state transition: the SELECT
leaves the table unchanged and produces the result list. -/
def list_expensesOp (s : Store) (start_date end_date : String) :
    Store × List Expense :=
  (s, list_expenses s start_date end_date)

/-- The read-only query `summarize` as a state transition: the SELECT leaves
the table unchanged and produces the result list. -/
def summarizeOp (s : Store) (start_date end_date : String)
    (category : Option String := none) : Store × List SummaryRow :=
  (s, summarize s start_date end_date category)

/-- Arguments of one `add_expense` call. -/
structure AddInput where
  date : String
  amount : ℚ
  category : String
  subcategory : String := ""
  note : String := ""
deriving DecidableEq, Repr

/-- Run a sequence of successful `add_expense` calls against a store,
collecting the ids the calls return. -/
def runAdds (s : Store) : List AddInput → Store × List Nat
  | [] => (s, [])
  | i :: is =>
    let p := add_expense s i.date i.amount i.category i.subcategory i.note
    let q := runAdds p.1 is
    (q.1, p.2.id :: q.2)

/-- Well-formedness of a table state: row ids strictly increase along the
list (hence are pairwise distinct) and all lie below the AUTOINCREMENT
counter. Every store reachable by inserts from the fresh table satisfies
this. -/
def WF (s : Store) : Prop :=
  s.rows.Pairwise (fun a b => a.id < b.id) ∧ ∀ e ∈ s.rows, e.id < s.nextId

instance : DecidablePred WF := fun s => by
  unfold WF; infer_instance

/-! Order properties of the lexical comparison. -/

theorem lexLe_refl (a : List Char) : lexLe a a = true := by
  induction a with
  | nil => rfl
  | cons x xs ih => simp [lexLe, ih]

theorem lexLe_total (a b : List Char) : lexLe a b = true ∨ lexLe b a = true := by
  induction a generalizing b with
  | nil => exact Or.inl rfl
  | cons x xs ih =>
    cases b with
    | nil => exact Or.inr rfl
    | cons y ys =>
      rcases lt_trichotomy x y with h | h | h
      · exact Or.inl (by simp [lexLe, h])
      · subst h
        rcases ih ys with h2 | h2
        · exact Or.inl (by simp [lexLe, h2])
        · exact Or.inr (by simp [lexLe, h2])
      · exact Or.inr (by simp [lexLe, h])

theorem lexLe_trans : ∀ (a b c : List Char),
    lexLe a b = true → lexLe b c = true → lexLe a c = true
  | [], _, _, _, _ => rfl
  | _ :: _, [], _, hab, _ => by simp [lexLe] at hab
  | _ :: _, _ :: _, [], _, hbc => by simp [lexLe] at hbc
  | x :: xs, y :: ys, z :: zs, hab, hbc => by
    simp only [lexLe] at hab hbc ⊢
    rcases lt_trichotomy x y with h1 | h1 | h1
    · rcases lt_trichotomy y z with h2 | h2 | h2
      · simp [lt_trans h1 h2]
      · subst h2; simp [h1]
      · rw [if_neg (lt_asymm h2), if_neg (ne_of_gt h2)] at hbc
        exact absurd hbc (by simp)
    · subst h1
      rw [if_neg (lt_irrefl x), if_pos rfl] at hab
      rcases lt_trichotomy x z with h2 | h2 | h2
      · simp [h2]
      · subst h2
        rw [if_neg (lt_irrefl x), if_pos rfl] at hbc ⊢
        exact lexLe_trans xs ys zs hab hbc
      · rw [if_neg (lt_asymm h2), if_neg (ne_of_gt h2)] at hbc
        exact absurd hbc (by simp)
    · rw [if_neg (lt_asymm h1), if_neg (ne_of_gt h1)] at hab
      exact absurd hab (by simp)

theorem strLe_total (a b : String) : strLe a b = true ∨ strLe b a = true :=
  lexLe_total a.data b.data

theorem strLe_trans {a b c : String} (hab : strLe a b = true)
    (hbc : strLe b c = true) : strLe a c = true :=
  lexLe_trans a.data b.data c.data hab hbc

theorem strLe_of_not_strLe {a b : String} (h : strLe a b = false) :
    strLe b a = true := by
  rcases strLe_total a b with h1 | h1
  · rw [h1] at h; cases h
  · exact h1

/-! Behaviour of `runAdds` and preservation of well-formedness. -/

theorem runAdds_ids (s : Store) (l : List AddInput) :
    (runAdds s l).2 = List.range' s.nextId l.length := by
  induction l generalizing s with
  | nil => rfl
  | cons i is ih => simp [runAdds, add_expense, ih, List.range']

theorem runAdds_nextId (s : Store) (l : List AddInput) :
    (runAdds s l).1.nextId = s.nextId + l.length := by
  induction l generalizing s with
  | nil => simp [runAdds]
  | cons i is ih => simp [runAdds, add_expense, ih]; omega

theorem runAdds_rows (s : Store) (l : List AddInput) :
    ∃ nw : List Expense, (runAdds s l).1.rows = s.rows ++ nw ∧
      nw.map (fun e => e.id) = List.range' s.nextId l.length := by
  induction l generalizing s with
  | nil => exact ⟨[], by simp [runAdds]⟩
  | cons i is ih =>
    obtain ⟨nw, hrows, hids⟩ :=
      ih (add_expense s i.date i.amount i.category i.subcategory i.note).1
    refine ⟨{ id := s.nextId, date := i.date, amount := i.amount,
              category := i.category, subcategory := i.subcategory,
              note := i.note } :: nw, ?_, ?_⟩
    · simp only [runAdds]
      rw [hrows]
      simp [add_expense]
    · simp only [List.map_cons, hids]
      simp [add_expense, List.range']

theorem WF_emptyStore : WF emptyStore := by constructor <;> simp [emptyStore]

theorem WF_add (s : Store) (date : String) (amount : ℚ)
    (category subcategory note : String) (h : WF s) :
    WF (add_expense s date amount category subcategory note).1 := by
  obtain ⟨hpw, hlt⟩ := h
  constructor
  · simp only [add_expense, List.pairwise_append]
    refine ⟨hpw, List.pairwise_singleton _ _, ?_⟩
    intro a ha b hb
    simp only [List.mem_singleton] at hb
    subst hb
    exact hlt a ha
  · intro e he
    simp only [add_expense, List.mem_append, List.mem_singleton] at he
    rcases he with he | he
    · exact Nat.lt_succ_of_lt (hlt e he)
    · subst he; exact Nat.lt_succ_self _

theorem WF_runAdds (s : Store) (l : List AddInput) (h : WF s) :
    WF (runAdds s l).1 := by
  induction l generalizing s with
  | nil => exact h
  | cons i is ih =>
    exact ih _ (WF_add s i.date i.amount i.category i.subcategory i.note h)

/-! Helper lemmas about the queries. -/

theorem list_expenses_eq_filter (s : Store) (d1 d2 : String) (h : WF s) :
    list_expenses s d1 d2 = s.rows.filter (inRange d1 d2) := by
  apply List.mergeSort_of_sorted
  exact (h.1.filter (inRange d1 d2)).imp
    (fun hlt => by simpa using Nat.le_of_lt hlt)

theorem mem_groupByCategory (L : List Expense) (r : SummaryRow) :
    r ∈ groupByCategory L ↔
      (∃ e ∈ L, e.category = r.category) ∧
      r.total_amount = catTotal L r.category := by
  unfold groupByCategory
  rw [List.mem_map]
  constructor
  · rintro ⟨c, hc, hfc⟩
    rw [List.mem_mergeSort, List.mem_dedup, List.mem_map] at hc
    obtain ⟨e, he, rfl⟩ := hc
    subst hfc
    exact ⟨⟨e, he, rfl⟩, rfl⟩
  · rintro ⟨⟨e, he, hcat⟩, htot⟩
    refine ⟨r.category, ?_, ?_⟩
    · rw [List.mem_mergeSort, List.mem_dedup, List.mem_map]
      exact ⟨e, he, hcat⟩
    · cases r
      simp only [SummaryRow.mk.injEq]
      exact ⟨trivial, htot.symm⟩

theorem cats_sorted (L : List Expense) :
    (((L.map (fun e => e.category)).dedup).mergeSort strLe).Pairwise
      (fun a b => strLe a b = true ∧ a ≠ b) := by
  have hsorted :
      (((L.map (fun e => e.category)).dedup).mergeSort strLe).Pairwise
        (fun a b => strLe a b = true) :=
    @List.sorted_mergeSort String strLe
      (fun _ _ _ hab hbc => strLe_trans hab hbc)
      (fun a b => by rcases strLe_total a b with h | h <;> simp [h])
      ((L.map (fun e => e.category)).dedup)
  have hnodup :
      (((L.map (fun e => e.category)).dedup).mergeSort strLe).Nodup :=
    (List.mergeSort_perm _ strLe).symm.nodup (List.nodup_dedup _)
  exact hsorted.and hnodup

theorem groupByCategory_sorted (L : List Expense) :
    (groupByCategory L).Pairwise
      (fun a b => strLe a.category b.category = true ∧ a.category ≠ b.category) := by
  unfold groupByCategory
  rw [List.pairwise_map]
  exact cats_sorted L

theorem length_le_one_of_const {l : List String} {c : String}
    (hnd : l.Nodup) (hall : ∀ x ∈ l, x = c) : l.length ≤ 1 := by
  match l with
  | [] => simp
  | [_] => simp
  | x :: y :: t =>
    exfalso
    have hx := hall x (by simp)
    have hy := hall y (by simp)
    rw [List.nodup_cons] at hnd
    exact hnd.1 (by rw [hx, ← hy]; simp)

theorem catTotal_filter (s : Store) (d1 d2 c : String) :
    catTotal (s.rows.filter (inRange d1 d2)) c =
      ((s.rows.filter (fun e => inRange d1 d2 e && (e.category == c))).map
        (fun e => e.amount)).sum := by
  unfold catTotal
  have h : s.rows.filter (fun a => (a.category == c) && inRange d1 d2 a) =
      s.rows.filter (fun e => inRange d1 d2 e && (e.category == c)) :=
    List.filter_congr (fun a _ => Bool.and_comm _ _)
  rw [List.filter_filter, h]

/-! Concrete data used to instantiate the theorems (the scenario of the
specification: a food row and a transport row in January 2024). -/

/-- Sample table state: the two rows of the specification's scenario, with
the AUTOINCREMENT counter past them. -/
def sampleStore : Store :=
  { rows :=
      [ { id := 1, date := "2024-01-05", amount := 25, category := "food",
          subcategory := "lunch", note := "" },
        { id := 2, date := "2024-01-10", amount := 40, category := "transport",
          subcategory := "", note := "" } ],
    nextId := 3 }

/-- Sample insert arguments: the two inserts of the specification's
scenario. -/
def sampleInputs : List AddInput :=
  [ { date := "2024-01-05", amount := 25, category := "food",
      subcategory := "lunch" },
    { date := "2024-01-10", amount := 40, category := "transport" } ]

/-- C1: for every well-formed store and bounds d1 ≤ d2 (lexically),
`list_expenses` returns exactly the rows whose date lies in the inclusive
range, ordered by strictly ascending id; each returned record is a full
`Expense`, i.e. carries all six fields. -/
theorem c1_list_expenses_range (s : Store) (d1 d2 : String) (hwf : WF s)
    (hd : strLe d1 d2 = true) :
    (∀ e : Expense, e ∈ list_expenses s d1 d2 ↔
        e ∈ s.rows ∧ strLe d1 e.date = true ∧ strLe e.date d2 = true) ∧
    (list_expenses s d1 d2).Pairwise (fun a b => a.id < b.id) := by
  rw [list_expenses_eq_filter s d1 d2 hwf]
  refine ⟨?_, hwf.1.filter _⟩
  intro e
  simp [List.mem_filter, inRange, Bool.and_eq_true, and_assoc]

/-- Witness for C1 at the specification's sample data. -/
theorem c1_witness :
    WF sampleStore ∧ strLe "2024-01-01" "2024-01-31" = true ∧
    ((∀ e : Expense,
        e ∈ list_expenses sampleStore "2024-01-01" "2024-01-31" ↔
          e ∈ sampleStore.rows ∧ strLe "2024-01-01" e.date = true ∧
            strLe e.date "2024-01-31" = true) ∧
      (list_expenses sampleStore "2024-01-01" "2024-01-31").Pairwise
        (fun a b => a.id < b.id)) :=
  ⟨by decide, by decide,
    c1_list_expenses_range sampleStore "2024-01-01" "2024-01-31"
      (by decide) (by decide)⟩

/-- C2: with no category filter, `summarize` returns one record per category
occurring among the rows of the inclusive range (so a category with zero
matching rows never appears), its total being the arithmetic sum of `amount`
over that category's matching rows, and the records are strictly ascending
alphabetically by category (hence one record per category). -/
theorem c2_summarize_no_filter (s : Store) (d1 d2 : String) :
    (∀ r : SummaryRow, r ∈ summarize s d1 d2 none ↔
        (∃ e ∈ s.rows, inRange d1 d2 e = true ∧ e.category = r.category) ∧
        r.total_amount = ((s.rows.filter (fun e =>
            inRange d1 d2 e && (e.category == r.category))).map
          (fun e => e.amount)).sum) ∧
    (summarize s d1 d2 none).Pairwise
      (fun a b => strLe a.category b.category = true ∧
        a.category ≠ b.category) := by
  have hs : summarize s d1 d2 none =
      groupByCategory (s.rows.filter (inRange d1 d2)) := rfl
  refine ⟨?_, by rw [hs]; exact groupByCategory_sorted _⟩
  intro r
  rw [hs, mem_groupByCategory, catTotal_filter]
  constructor
  · rintro ⟨⟨e, he, hc⟩, ht⟩
    rw [List.mem_filter] at he
    exact ⟨⟨e, he.1, he.2, hc⟩, ht⟩
  · rintro ⟨⟨e, he, hr, hc⟩, ht⟩
    exact ⟨⟨e, List.mem_filter.mpr ⟨he, hr⟩, hc⟩, ht⟩

/-- C3: over any sequence of successful `add_expense` calls on a well-formed
store, the returned ids strictly increase, the pre-existing rows (with their
ids) are preserved unchanged, no returned id coincides with the id of a
pre-existing row, and the final store is again well formed (so ids stay
pairwise distinct: an id is never reassigned to a different row). -/
theorem c3_ids_monotone (s : Store) (l : List AddInput) (hwf : WF s) :
    (runAdds s l).2.Pairwise (fun a b => a < b) ∧
    (∃ nw : List Expense, (runAdds s l).1.rows = s.rows ++ nw) ∧
    (∀ n ∈ (runAdds s l).2, ∀ e ∈ s.rows, e.id ≠ n) ∧
    WF (runAdds s l).1 := by
  refine ⟨?_, ?_, ?_, WF_runAdds s l hwf⟩
  · rw [runAdds_ids]
    exact List.pairwise_lt_range' s.nextId l.length
  · obtain ⟨nw, h1, _⟩ := runAdds_rows s l
    exact ⟨nw, h1⟩
  · intro n hn e he
    rw [runAdds_ids] at hn
    have h1 := (List.mem_range'_1.mp hn).1
    have h2 := hwf.2 e he
    omega

/-- Witness for C3: the two scenario inserts run against the fresh table. -/
theorem c3_witness :
    WF emptyStore ∧
    ((runAdds emptyStore sampleInputs).2.Pairwise (fun a b => a < b) ∧
      (∃ nw : List Expense,
        (runAdds emptyStore sampleInputs).1.rows = emptyStore.rows ++ nw) ∧
      (∀ n ∈ (runAdds emptyStore sampleInputs).2,
        ∀ e ∈ emptyStore.rows, e.id ≠ n) ∧
      WF (runAdds emptyStore sampleInputs).1) :=
  ⟨by decide, c3_ids_monotone emptyStore sampleInputs (by decide)⟩

/-- C4: `add_expense` has exactly two outcomes: if the engine write fails,
the very StorageError the engine raised propagates to the caller (it is not
swallowed, not replaced, and there is no second attempt), and if the write
succeeds the caller gets the record with status "ok" and the newly assigned
id; no other result shape exists. -/
theorem c4_add_expense_result (engine : Option StorageError) (s : Store)
    (date : String) (amount : ℚ) (category subcategory note : String) :
    (∃ e : StorageError, engine = some e ∧
        add_expenseE engine s date amount category subcategory note =
          Except.error e) ∨
    (engine = none ∧
        add_expenseE engine s date amount category subcategory note =
          Except.ok ((add_expense s date amount category subcategory note).1,
            { status := "ok", id := s.nextId })) := by
  cases engine with
  | some e => exact Or.inl ⟨e, rfl, rfl⟩
  | none => exact Or.inr ⟨rfl, rfl⟩

/-- C5: a range containing no rows gives the empty list; in particular this
holds whenever the bounds are inverted (start lexically above end), since no
date can lie between them. The embedded query is a total function, so no
error is possible. -/
theorem c5_empty_range (s : Store) (d1 d2 : String)
    (h : strLe d1 d2 = false ∨ ∀ e ∈ s.rows, inRange d1 d2 e = false) :
    list_expenses s d1 d2 = [] := by
  have hall : ∀ e ∈ s.rows, ¬ inRange d1 d2 e = true := by
    rcases h with h | h
    · intro e _ hc
      simp only [inRange, Bool.and_eq_true] at hc
      have h1 := strLe_trans hc.1 hc.2
      rw [h] at h1
      cases h1
    · intro e he hc
      rw [h e he] at hc
      cases hc
  unfold list_expenses
  rw [List.filter_eq_nil_iff.mpr hall, List.mergeSort_nil]

/-- Witness for C5: inverted bounds on the sample table. -/
theorem c5_witness :
    (strLe "2024-02-01" "2024-01-01" = false ∨
      ∀ e ∈ sampleStore.rows, inRange "2024-02-01" "2024-01-01" e = false) ∧
    list_expenses sampleStore "2024-02-01" "2024-01-01" = [] :=
  ⟨Or.inl (by decide),
    c5_empty_range sampleStore "2024-02-01" "2024-01-01" (Or.inl (by decide))⟩

/-- C6: `init_db` is idempotent: a repeated call changes nothing (in
particular, a call on an existing table keeps exactly its rows), and the
embedded operation is total, so no error is raised. -/
theorem c6_init_db_idempotent :
    (∀ db : Option Store, init_db (init_db db) = init_db db) ∧
    (∀ s : Store, init_db (some s) = some s) := by
  constructor
  · intro db; cases db <;> rfl
  · intro s; rfl

/-- C7: the queries are read-only (as state transitions they leave the table
untouched), and no operation of the system updates or deletes an existing
row: an insert only appends, and `init_db` on an existing table is the
identity. -/
theorem c7_queries_read_only :
    (∀ (s : Store) (d1 d2 : String), (list_expensesOp s d1 d2).1 = s) ∧
    (∀ (s : Store) (d1 d2 : String) (c : Option String),
        (summarizeOp s d1 d2 c).1 = s) ∧
    (∀ (s : Store) (date : String) (amount : ℚ) (cat sub nt : String),
        ∃ nw : List Expense,
          (add_expense s date amount cat sub nt).1.rows = s.rows ++ nw) ∧
    (∀ s : Store, init_db (some s) = some s) := by
  refine ⟨fun _ _ _ => rfl, fun _ _ _ _ => rfl, ?_, fun _ => rfl⟩
  intro s date amount cat sub nt
  exact ⟨[{ id := s.nextId, date := date, amount := amount, category := cat,
            subcategory := sub, note := nt }], rfl⟩

/-- C8: when a non-empty category filter is supplied, every returned record
carries that category, there is at most one record, and if no row in the
range has that category the result is empty. -/
theorem c8_summarize_category_filter (s : Store) (d1 d2 c : String)
    (hc : c ≠ "") :
    (∀ r ∈ summarize s d1 d2 (some c), r.category = c) ∧
    (summarize s d1 d2 (some c)).length ≤ 1 ∧
    ((∀ e ∈ s.rows, inRange d1 d2 e = false ∨ e.category ≠ c) →
        summarize s d1 d2 (some c) = []) := by
  have hbeq : (c == "") = false := beq_eq_false_iff_ne.mpr hc
  have hs : summarize s d1 d2 (some c) =
      groupByCategory ((s.rows.filter (inRange d1 d2)).filter
        (fun e => e.category == c)) := by
    unfold summarize
    simp only [truthy, hbeq, Bool.not_false, if_true, Option.getD_some]
  refine ⟨?_, ?_, ?_⟩
  · intro r hr
    rw [hs, mem_groupByCategory] at hr
    obtain ⟨⟨e, he, hcat⟩, _⟩ := hr
    exact hcat ▸ eq_of_beq (List.mem_filter.mp he).2
  · rw [hs]
    unfold groupByCategory
    rw [List.length_map]
    refine @length_le_one_of_const _ c ?_ ?_
    · exact (List.mergeSort_perm _ strLe).symm.nodup (List.nodup_dedup _)
    · intro x hx
      rw [List.mem_mergeSort, List.mem_dedup, List.mem_map] at hx
      obtain ⟨e, he, rfl⟩ := hx
      exact eq_of_beq (List.mem_filter.mp he).2
  · intro hno
    rw [hs]
    have hnil : (s.rows.filter (inRange d1 d2)).filter
        (fun e => e.category == c) = [] := by
      rw [List.filter_eq_nil_iff]
      intro e he
      rw [List.mem_filter] at he
      rcases hno e he.1 with h | h
      · rw [he.2] at h; cases h
      · simp [h]
    rw [hnil]
    unfold groupByCategory
    simp

/-- Witness for C8: filtering the sample table by a category no row has. -/
theorem c8_witness :
    ("gifts" : String) ≠ "" ∧
    ((∀ r ∈ summarize sampleStore "2024-01-01" "2024-01-31" (some "gifts"),
        r.category = "gifts") ∧
      (summarize sampleStore "2024-01-01" "2024-01-31" (some "gifts")).length ≤ 1 ∧
      ((∀ e ∈ sampleStore.rows,
          inRange "2024-01-01" "2024-01-31" e = false ∨ e.category ≠ "gifts") →
        summarize sampleStore "2024-01-01" "2024-01-31" (some "gifts") = [])) :=
  ⟨by decide,
    c8_summarize_category_filter sampleStore "2024-01-01" "2024-01-31" "gifts"
      (by decide)⟩

/-- C9: every access to the `categories` resource returns the bytes the
backing file holds at that moment, verbatim: over any sequence of accesses
with any (possibly changing) file contents, the results are exactly the
contents seen at each access, so nothing is cached, transformed or
validated. -/
theorem c9_categories_verbatim :
    (∀ content : String, categories content = content) ∧
    (∀ contents : List String, categoriesAccesses contents = contents) :=
  ⟨fun _ => rfl, fun contents => List.map_id' contents⟩

/-- C10: the empty-string category argument is falsy in Python, so
`summarize` with category "" behaves exactly as if no filter were supplied
(it does not return the empty result of an unmatchable filter). -/
theorem c10_empty_category_filter (s : Store) (d1 d2 : String) :
    summarize s d1 d2 (some "") = summarize s d1 d2 none := rfl
